import Mathlib

/-!
Verification of the godepgraph dependency-graph renderer.

The development embeds the program's data model and operations:

* `Package`, mirroring the fields of `go/build.Package` that the program
  reads: `ImportPath`, `Goroot`, `CgoFiles`, `Imports`.
* the filter policy: `sanitizeCSV`, `hasPrefixes`, `isIgnored`,
  `isNotOfBasepath` (path-based-id variant) and `isIgnored1`,
  `isNotOfBasepath1` (counter-based-id variant);
* the graph builder `processPackage`, with the package-metadata provider
  modelled as a function `env : String → Except String Package`
  (`build.Import`), the mutable globals `pkgs`/`basePath` as an explicit
  `BuildState`, and a fuel parameter making the Go recursion a total
  function;
* the renderer, modelled as a list of emission events (`Ev`) that are
  formatted into output lines exactly as the `fmt.Printf` calls do,
  parameterised by the iteration order of the `pkgs` map (Go map range
  order is unspecified);
* the counter-based-id variant's `getId` registry and its render loop.
-/

namespace Godep

/-! ### Character-level string primitives

The Go `strings` functions used by the program, embedded on the
character sequence underlying a `String` (Go strings are byte
sequences; for the valid UTF-8 data handled here, per-character
operations coincide with Go's byte-wise ones).  They are structurally
recursive so that concrete runs evaluate inside the kernel. -/

/-- `strings.HasPrefix`. -/
def strHasPrefix (s pre : String) : Bool :=
  pre.data.isPrefixOf s.data

/-- `strings.Split` with a one-character separator (the program only
splits on `","` and `"/"`). -/
def splitOnChar (sep : Char) : List Char → List (List Char)
  | [] => [[]]
  | c :: cs =>
    let r := splitOnChar sep cs
    if c = sep then [] :: r
    else
      match r with
      | [] => [[c]]
      | h :: t => (c :: h) :: t

/-- `strings.Split` on a `String`. -/
def strSplit (s : String) (sep : Char) : List String :=
  (splitOnChar sep s.data).map (fun l => ⟨l⟩)

/-- `strings.Join`. -/
def joinSep (sep : String) : List String → String
  | [] => ""
  | [x] => x
  | x :: xs => x ++ sep ++ joinSep sep xs

/-- `strings.TrimSpace` on the character list. -/
def trimChars (l : List Char) : List Char :=
  ((l.dropWhile Char.isWhitespace).reverse.dropWhile Char.isWhitespace).reverse

/-- `strings.TrimSpace`. -/
def strTrim (s : String) : String :=
  ⟨trimChars s.data⟩

/-- `strings.ToLower`. -/
def strToLower (s : String) : String :=
  ⟨s.data.map Char.toLower⟩

/-- The fields of `go/build.Package` that the program reads. -/
structure Package where
  importPath : String
  goroot : Bool
  cgoFiles : List String
  imports : List String
deriving Repr, DecidableEq

/-- The flag-derived configuration of the path-based-id variant:
`-s`, `-p`, `-i` (merged into the exact-ignore set together with the
initial sentinel `"C"`), `-n`, `-b`, `-subgraph`, `-network-subgraphs`. -/
structure Config where
  ignoreStdlib : Bool
  ignoredPrefixes : List String
  ignored : List String
  includedPackages : List String
  filterByBasePath : Bool
  subgraph : Bool
  networkSubgraphs : Bool
deriving Repr, DecidableEq

/-- Go `sanitizeCSV`: split on commas, trim and lower-case every entry. -/
def sanitizeCSV (csv : String) : List String :=
  (strSplit csv (',')).map (fun v => strToLower (strTrim v))

/-- Configuration assembly in `main`: each CSV flag is sanitized only when
non-empty, and the `-i` entries are added to the ignore set that is
initialised with the sentinel `"C"`. -/
def mkConfig (s : Bool) (p i n : String) (b sub net : Bool) : Config where
  ignoreStdlib := s
  ignoredPrefixes := if p = "" then [] else sanitizeCSV p
  ignored := "C" :: (if i = "" then [] else sanitizeCSV i)
  includedPackages := if n = "" then [] else sanitizeCSV n
  filterByBasePath := b
  subgraph := sub
  networkSubgraphs := net

/-- Go `hasPrefixes`: `strings.HasPrefix` against any entry of the list. -/
def hasPrefixes (s : String) (ps : List String) : Bool :=
  ps.any (fun p => strHasPrefix s p)

/-- Go `isNotOfBasepath` (path-based-id variant): active only when the
`-b` flag is set. -/
def isNotOfBasepath (filterByBasePath : Bool) (importPath bp : String) : Bool :=
  filterByBasePath && !(strHasPrefix importPath bp)

/-- Go `isIgnored` (path-based-id variant). -/
def isIgnored (c : Config) (bp : String) (pkg : Package) : Bool :=
  !(hasPrefixes pkg.importPath c.includedPackages) &&
    (c.ignored.contains pkg.importPath ||
      (pkg.goroot && c.ignoreStdlib) ||
      hasPrefixes pkg.importPath c.ignoredPrefixes ||
      isNotOfBasepath c.filterByBasePath pkg.importPath bp)

/-- `strings.Join(strings.Split(p, "/")[0:len-1], "/")`: the parent of
an import path, used for base-path inference. -/
def parentPath (p : String) : String :=
  let parts := strSplit p ('/')
  joinSep "/" (parts.take (parts.length - 1))

/-- The mutable globals of the build phase: the `pkgs` map (as an
association list in insertion order) and the inferred `basePath`. -/
structure BuildState where
  pkgs : List (String × Package)
  basePath : String
deriving Repr, DecidableEq

/-- Go map assignment `pkgs[k] = v`: replace the binding if the key is
present, otherwise append it. -/
def insertPkg (l : List (String × Package)) (k : String) (v : Package) :
    List (String × Package) :=
  if (l.lookup k).isSome then
    l.map (fun q => if q.1 = k then (k, v) else q)
  else
    l ++ [(k, v)]

/-- Errors of the build phase: a failed `build.Import` (carrying the
requested path and the provider's cause), or exhaustion of the fuel that
makes the embedded recursion total. -/
inductive BuildErr where
  | fuelExhausted
  | importFailed (path cause : String)
deriving Repr, DecidableEq

instance {ε α : Type} [DecidableEq ε] [DecidableEq α] : DecidableEq (Except ε α) :=
  fun x y =>
    match x, y with
    | .error e, .error e' =>
      if h : e = e' then .isTrue (by rw [h]) else .isFalse (by intro he; cases he; exact h rfl)
    | .ok a, .ok a' =>
      if h : a = a' then .isTrue (by rw [h]) else .isFalse (by intro he; cases he; exact h rfl)
    | .error _, .ok _ => .isFalse (by intro h; cases h)
    | .ok _, .error _ => .isFalse (by intro h; cases h)

/-- `fmt.Errorf("failed to import %s: %s", pkgName, err)`. -/
def errMsg : BuildErr → String
  | .fuelExhausted => "fuel exhausted"
  | .importFailed p c => "failed to import " ++ p ++ ": " ++ c

/-- The `basePath`-inference plus `pkgs`-insertion step of
`processPackage` (lines 145-153 of the path-based-id variant): infer the
base path whenever it is still empty, then store the package under its
canonical import path. -/
def applyPkg (st : BuildState) (pkg : Package) : BuildState :=
  let bp := if st.basePath = "" then parentPath pkg.importPath else st.basePath
  { basePath := bp, pkgs := insertPkg st.pkgs pkg.importPath pkg }

/-- Go `processPackage` (path-based-id variant), with the metadata
provider `env` in place of `build.Import` and explicit fuel.  The Go
code short-circuits on the exact-ignore set, resolves, applies the
filter, infers the base path, inserts, stops at Goroot packages, and
recurses into each import not yet present in `pkgs`. -/
def processPackage (c : Config) (env : String → Except String Package) :
    Nat → BuildState → String → Except BuildErr BuildState
  | 0, _, _ => .error .fuelExhausted
  | fuel + 1, st, pkgName =>
    if c.ignored.contains pkgName then .ok st
    else
      match env pkgName with
      | .error e => .error (.importFailed pkgName e)
      | .ok pkg =>
        if isIgnored c st.basePath pkg then .ok st
        else
          let st2 := applyPkg st pkg
          if pkg.goroot then .ok st2
          else
            pkg.imports.foldlM
              (fun s imp =>
                if (s.pkgs.lookup imp).isSome then pure s
                else processPackage c env fuel s imp)
              st2

/-- `ns`: namespace a node name with the base path,
`fmt.Sprintf("%s:%s", basePath, name)`. -/
def ns (bp name : String) : String := bp ++ ":" ++ name

/-- The line printed by Go `printNode` (path-based-id variant). -/
def nodeLine (bp name color : String) : String :=
  "\"" ++ ns bp name ++ "\" [label=\"" ++ name ++ "\" style=\"filled\" color=\"" ++
    color ++ "\"];"

/-- The line printed by Go `printEdge` (path-based-id variant). -/
def edgeLine (bp src dst : String) : String :=
  "\"" ++ ns bp src ++ "\" -> \"" ++ ns bp dst ++ "\";"

/-- The lines printed by Go `printSubgraphHead`. -/
def subgraphHeadLines (name : String) : List String :=
  ["subgraph \"cluster" ++ name ++ "\" \x7b",
   "style=filled;",
   "color=lightgrey;",
   "label=\"" ++ name ++ "\""]

/-- The node-colour priority chain of the render loop. -/
def nodeColor (includedPackages : List String) (pkg : Package) : String :=
  if pkg.goroot then "palegreen"
  else if pkg.cgoFiles.length > 0 then "darkgoldenrod1"
  else if hasPrefixes pkg.importPath includedPackages then "violet"
  else "paleturquoise"

/-- Render-phase emissions: the graph header, a `printSubgraphHead` call,
a `printNode` call, a `printEdge` call, or a literal closing brace. -/
inductive Ev where
  | header
  | shead (name : String)
  | node (name color : String)
  | edge (src dst : String)
  | closeB
deriving Repr, DecidableEq

/-- The lines each emission produces; node and edge names pass through
`ns` exactly as in `printNode`/`printEdge`. -/
def evLines (bp : String) : Ev → List String
  | .header => ["digraph godep \x7b"]
  | .shead n => subgraphHeadLines n
  | .node n col => [nodeLine bp n col]
  | .edge s d => [edgeLine bp s d]
  | .closeB => ["\x7d"]

/-- The edge the render loop emits for one import string `imp` of the
package at key `src`: `impPkg := pkgs[imp]`, then skip when `impPkg` is
nil or ignored. -/
def edgeFor (c : Config) (bp : String) (pkgs : List (String × Package))
    (src imp : String) : Option Ev :=
  match pkgs.lookup imp with
  | none => none
  | some q => if isIgnored c bp q then none else some (Ev.edge src imp)

/-- The emissions of one iteration of the main render loop for the map
entry `e` (key `pkgName`, value `pkg`): skip ignored packages, print the
node, then print one edge per import whose target is present in `pkgs`
and not ignored. -/
def pkgBlock (c : Config) (bp : String) (pkgs : List (String × Package))
    (e : String × Package) : List Ev :=
  if isIgnored c bp e.2 then []
  else
    Ev.node e.1 (nodeColor c.includedPackages e.2) ::
      e.2.imports.filterMap (edgeFor c bp pkgs e.1)

/-- All emissions of the main render loop, iterating the `pkgs` map in
the order `order`. -/
def mainEvents (c : Config) (bp : String) (pkgs : List (String × Package))
    (order : List (String × Package)) : List Ev :=
  order.flatMap (pkgBlock c bp pkgs)

/-- The `networkPackages` collection of the main render loop: the keys of
the rendered (non-ignored) packages that match an always-include prefix
and do not start with the base path, collected only when
`-network-subgraphs` is set. -/
def networkEntries (c : Config) (bp : String)
    (order : List (String × Package)) : List String :=
  if c.networkSubgraphs then
    (order.filter (fun e =>
      !isIgnored c bp e.2 &&
        hasPrefixes e.2.importPath c.includedPackages &&
        !(strHasPrefix e.2.importPath bp))).map Prod.fst
  else []

/-- `strings.Split(pkgName, "/")` last element: the final path segment. -/
def lastSegment (p : String) : String :=
  (strSplit p ('/')).getLastD ""

/-- The second-pass emissions for one collected network package: a
subgraph head named after the final segment, a synthetic default-colour
node, a closing brace, and an edge from the original node to the
synthetic one. -/
def networkBlock (p : String) : List Ev :=
  [Ev.shead (lastSegment p),
   Ev.node (lastSegment p) "paleturquoise",
   Ev.closeB,
   Ev.edge p (lastSegment p)]

/-- All emissions of the network-subgraph second pass. -/
def networkEvents (c : Config) (bp : String)
    (order : List (String × Package)) : List Ev :=
  (networkEntries c bp order).flatMap networkBlock

/-- The full emission sequence of `main`'s render phase: header, optional
base-path subgraph wrapper, main loop, optional wrapper close, network
second pass, footer. -/
def events (c : Config) (st : BuildState)
    (order : List (String × Package)) : List Ev :=
  [Ev.header] ++
    (if c.subgraph && (st.basePath != "") then [Ev.shead st.basePath] else []) ++
    mainEvents c st.basePath st.pkgs order ++
    (if c.subgraph && (st.basePath != "") then [Ev.closeB] else []) ++
    networkEvents c st.basePath order ++
    [Ev.closeB]

/-- The text lines written to standard output, for a given map iteration
order. -/
def outputLines (c : Config) (st : BuildState)
    (order : List (String × Package)) : List String :=
  (events c st order).flatMap (evLines st.basePath)

/-- A whole run of the path-based-id variant: build, then render (in
`pkgs` insertion order); on a build error nothing is printed
(`log.Fatal` before the header). -/
def run (c : Config) (env : String → Except String Package) (fuel : Nat)
    (root : String) : Except BuildErr (List String) :=
  match processPackage c env fuel ⟨[], ""⟩ root with
  | .error e => .error e
  | .ok st => .ok (outputLines c st st.pkgs)

/-! ### The counter-based-id variant

The counter-based-id program differs in its id registry (`getId`
assigning monotonically increasing integers on first sight), its `-b`
flag (a user-supplied base-path string, no inference), its raw
`strings.Split` flag parsing, and an active `continue` that suppresses
edges out of Goroot packages. -/

/-- The flag-derived configuration of the counter-based-id variant. -/
structure Config1 where
  ignoreStdlib : Bool
  ignoredPrefixes : List String
  ignored : List String
  includedPackages : List String
  basePath : String
deriving Repr, DecidableEq

/-- Go `isNotOfBasepath` (counter-based-id variant): active whenever the
`-b` string is non-empty. -/
def isNotOfBasepath1 (importPath bp : String) : Bool :=
  (bp != "") && !(strHasPrefix importPath bp)

/-- Go `isIgnored` (counter-based-id variant). -/
def isIgnored1 (c : Config1) (pkg : Package) : Bool :=
  !(hasPrefixes pkg.importPath c.includedPackages) &&
    (c.ignored.contains pkg.importPath ||
      (pkg.goroot && c.ignoreStdlib) ||
      hasPrefixes pkg.importPath c.ignoredPrefixes ||
      isNotOfBasepath1 pkg.importPath c.basePath)

/-- The mutable `ids` map and `nextId` counter. -/
structure IdState where
  ids : List (String × Nat)
  nextId : Nat
deriving Repr, DecidableEq

/-- Go `getId`: return the existing id, or assign `nextId` and bump it. -/
def getId (st : IdState) (name : String) : Nat × IdState :=
  match st.ids.lookup name with
  | some i => (i, st)
  | none => (st.nextId, ⟨st.ids ++ [(name, st.nextId)], st.nextId + 1⟩)

/-- Integer-id render emissions: `fmt.Printf("%d [label=...")` node lines
and `fmt.Printf("%d -> %d;")` edge lines. -/
inductive CEv where
  | node (id : Nat) (label color : String)
  | edge (src dst : Nat)
deriving Repr, DecidableEq

/-- Name-level render emissions, before id assignment. -/
inductive NEv where
  | node (name color : String)
  | edge (src dst : String)
deriving Repr, DecidableEq

/-- Rename a name-level emission with an id assignment. -/
def renameEv (f : String → Nat) : NEv → CEv
  | .node n col => .node (f n) n col
  | .edge s d => .edge (f s) (f d)

/-- One step of the counter-based-id edge loop for one import string:
`impPkg := pkgs[imp]`, skip when nil or ignored, else `getId(imp)` and
emit the integer edge. -/
def edgeStep (c : Config1) (pkgs : List (String × Package)) (pkgId : Nat)
    (acc : IdState × List CEv) (imp : String) : IdState × List CEv :=
  match pkgs.lookup imp with
  | none => acc
  | some q =>
    if isIgnored1 c q then acc
    else
      let qi := getId acc.1 imp
      (qi.2, acc.2 ++ [CEv.edge pkgId qi.1])

/-- One iteration of the counter-based-id render loop: `getId` runs
before the ignore check; ignored packages emit nothing; Goroot packages
emit their node but no edges (the active `continue`); otherwise, each
one of the imports present in `pkgs` and not ignored gets an id and an
edge. -/
def counterBlock (c : Config1) (pkgs : List (String × Package))
    (ids : IdState) (e : String × Package) : IdState × List CEv :=
  let pi := getId ids e.1
  if isIgnored1 c e.2 then (pi.2, [])
  else
    let nodeEv := CEv.node pi.1 e.1 (nodeColor c.includedPackages e.2)
    if e.2.goroot then (pi.2, [nodeEv])
    else
      let r := e.2.imports.foldl (edgeStep c pkgs pi.1) (pi.2, [])
      (r.1, nodeEv :: r.2)

/-- The counter-based-id render loop over a map iteration order,
threading the id registry. -/
def counterRender (c : Config1) (pkgs : List (String × Package)) :
    IdState → List (String × Package) → IdState × List CEv
  | ids, [] => (ids, [])
  | ids, e :: rest =>
    let r := counterBlock c pkgs ids e
    let r2 := counterRender c pkgs r.1 rest
    (r2.1, r.2 ++ r2.2)

/-- The name-level edge of one counter-render edge step. -/
def nameEdgeFor (c : Config1) (pkgs : List (String × Package))
    (src imp : String) : Option NEv :=
  match pkgs.lookup imp with
  | none => none
  | some q => if isIgnored1 c q then none else some (NEv.edge src imp)

/-- The name-level content of one counter-render iteration: which node
and which edges are emitted, ids abstracted away. -/
def nameBlock (c : Config1) (pkgs : List (String × Package))
    (e : String × Package) : List NEv :=
  if isIgnored1 c e.2 then []
  else
    let nodeEv := NEv.node e.1 (nodeColor c.includedPackages e.2)
    if e.2.goroot then [nodeEv]
    else nodeEv :: e.2.imports.filterMap (nameEdgeFor c pkgs e.1)

/-- The id-registry invariant: ids are handed out as `0, 1, 2, …` in
first-sight order, so the registry values are exactly
`0 … length - 1`. -/
def IdWF (ids : IdState) : Prop :=
  ids.ids.map Prod.snd = List.range ids.ids.length ∧
    ids.nextId = ids.ids.length

/-- The `pkgs` map of the two-package cycle run, used as a render
fixture. -/
def pkgsA : List (String × Package) :=
  [("a", ⟨"a", false, [], ["b"]⟩), ("b", ⟨"b", false, [], ["a"]⟩)]

/-- The name-level content of the whole counter-render loop. -/
def nameEvents (c : Config1) (pkgs : List (String × Package))
    (order : List (String × Package)) : List NEv :=
  order.flatMap (nameBlock c pkgs)

/-- The id a name ends up with in the final registry of a run. -/
def finalIdOf (c : Config1) (pkgs order : List (String × Package))
    (n : String) : Nat :=
  (((counterRender c pkgs ⟨[], 0⟩ order).1).ids.lookup n).getD 0

/-! ### Concrete fixtures used by witnesses and counterexamples -/

/-- A provider that fails on every path. -/
def env9 : String → Except String Package :=
  fun _ => Except.error "no such package"

/-- A provider with the single package `x/y/z`. -/
def env5 : String → Except String Package
  | "x/y/z" => Except.ok ⟨"x/y/z", false, [], []⟩
  | s => Except.error ("cannot find package " ++ s)

/-- A provider with the single package `FOO` (upper-case path). -/
def env7 : String → Except String Package
  | "FOO" => Except.ok ⟨"FOO", false, [], []⟩
  | s => Except.error ("cannot find package " ++ s)

/-- A provider with a two-package import cycle `a ↔ b`. -/
def envA : String → Except String Package
  | "a" => Except.ok ⟨"a", false, [], ["b"]⟩
  | "b" => Except.ok ⟨"b", false, [], ["a"]⟩
  | s => Except.error ("cannot find package " ++ s)

/-! ### The termination measure of the build recursion -/

/-- The number of entries of a universe `U` of import paths not yet
present as keys of the `pkgs` map. -/
def unvisited (U : List String) (st : BuildState) : Nat :=
  (U.filter (fun s => (st.pkgs.lookup s).isNone)).length

/-- `U` is a universe for the provider: every package it resolves inside
`U` is canonical (its `ImportPath` equals the requested string — which
is what `go/build` returns when imports are written canonically) and has
all its imports inside `U`. -/
def envClosedOn (env : String → Except String Package) (U : List String) : Bool :=
  U.all (fun s =>
    match env s with
    | .ok pkg =>
      pkg.importPath == s && pkg.imports.all (fun imp => U.contains imp)
    | .error _ => true)

/-! ### Association-list lemmas -/

theorem lookup_append_some {α β : Type} [BEq α] [LawfulBEq α] {l t : List (α × β)} {k : α} {v : β}
    (h : l.lookup k = some v) : (l ++ t).lookup k = some v := by
  rw [List.lookup_append, h]
  rfl

theorem lookup_map_replace_ne {q k : String} (v : Package)
    (l : List (String × Package)) (hq : q ≠ k) :
    (l.map (fun p => if p.1 = k then (k, v) else p)).lookup q = l.lookup q := by
  induction l with
  | nil => rfl
  | cons a l ih =>
    obtain ⟨a1, a2⟩ := a
    simp only [List.map_cons]
    by_cases hk : a1 = k
    · rw [if_pos (show (a1, a2).1 = k from hk)]
      have h1 : (q == k) = false := by simpa using hq
      have h2 : (q == a1) = false := by simpa using (hk ▸ hq : q ≠ a1)
      rw [List.lookup_cons, List.lookup_cons, h1, h2]
      exact ih
    · rw [if_neg (show ¬((a1, a2).1 = k) from hk)]
      rw [List.lookup_cons, List.lookup_cons]
      cases hqa : (q == a1) with
      | true => rfl
      | false => exact ih

theorem lookup_insertPkg_self (l : List (String × Package)) (k : String) (v : Package) :
    (insertPkg l k v).lookup k = some v := by
  unfold insertPkg
  split
  case isTrue h =>
    induction l with
    | nil => simp at h
    | cons a l ih =>
      obtain ⟨a1, a2⟩ := a
      simp only [List.map_cons]
      by_cases hk : a1 = k
      · rw [if_pos (show (a1, a2).1 = k from hk)]
        rw [List.lookup_cons]
        simp
      · rw [if_neg (show ¬((a1, a2).1 = k) from hk)]
        have h2 : (k == a1) = false := by simpa using (fun e => hk e.symm : k ≠ a1)
        rw [List.lookup_cons, h2]
        rw [List.lookup_cons, h2] at h
        exact ih h
  case isFalse h =>
    have hnone : l.lookup k = none := by
      cases hl : l.lookup k with
      | none => rfl
      | some v' => rw [hl] at h; simp at h
    rw [List.lookup_append, hnone]
    simp

theorem lookup_insertPkg_isSome {l : List (String × Package)} {q : String}
    (k : String) (v : Package) (h : (l.lookup q).isSome = true) :
    ((insertPkg l k v).lookup q).isSome = true := by
  by_cases hq : q = k
  · subst hq; rw [lookup_insertPkg_self]; rfl
  · unfold insertPkg
    split
    · rw [lookup_map_replace_ne v l hq]
      exact h
    · rw [List.lookup_append]
      cases hl : l.lookup q with
      | none => rw [hl] at h; simp at h
      | some v' => simp

theorem lookup_eq_some_of_mem_nodup {l : List (String × Package)} {k : String}
    {v : Package} (hnd : (l.map Prod.fst).Nodup) (hm : (k, v) ∈ l) :
    l.lookup k = some v := by
  induction l with
  | nil => simp at hm
  | cons a l ih =>
    obtain ⟨a1, a2⟩ := a
    simp only [List.map_cons, List.nodup_cons] at hnd
    rcases List.mem_cons.mp hm with h | h
    · cases h
      rw [List.lookup_cons]
      simp
    · have hk : k ≠ a1 := by
        intro e
        exact hnd.1 (e ▸ (List.mem_map.mpr ⟨(k, v), h, rfl⟩))
      have h2 : (k == a1) = false := by simpa using hk
      rw [List.lookup_cons, h2]
      exact ih hnd.2 h

theorem mem_of_lookup_eq_some' {l : List (String × Package)} {k : String}
    {v : Package} (h : l.lookup k = some v) : (k, v) ∈ l := by
  induction l with
  | nil => simp at h
  | cons a l ih =>
    obtain ⟨a1, a2⟩ := a
    rw [List.lookup_cons] at h
    cases hk : (k == a1) with
    | true =>
      rw [hk] at h
      cases h
      have : k = a1 := by simpa using hk
      cases this
      exact List.mem_cons_self _ _
    | false =>
      rw [hk] at h
      exact List.mem_cons_of_mem _ (ih h)

/-! ### Transition lemmas for the build phase -/

/-- Any reflexive-transitive relation that holds across `applyPkg` holds
across the imports fold of `processPackage`. -/
theorem foldlM_rel {g : BuildState → String → Except BuildErr BuildState}
    {R : BuildState → BuildState → Prop}
    (htrans : ∀ a b c, R a b → R b c → R a c)
    (hg : ∀ st a st', g st a = Except.ok st' → R st st')
    (hrefl : ∀ s, R s s) :
    ∀ l st st', List.foldlM g st l = Except.ok st' → R st st' := by
  intro l
  induction l with
  | nil =>
    intro st st' h
    simp only [List.foldlM_nil] at h
    cases h
    exact hrefl st
  | cons a l ih =>
    intro st st' h
    simp only [List.foldlM_cons] at h
    cases hga : g st a with
    | error e => rw [hga] at h; simp [Bind.bind, Except.bind] at h
    | ok st1 =>
      rw [hga] at h
      simp only [Bind.bind, Except.bind] at h
      exact htrans _ _ _ (hg st a st1 hga) (ih st1 st' h)

/-- Any reflexive-transitive relation that holds across `applyPkg` holds
across a successful `processPackage` call. -/
theorem processPackage_rel {c : Config} {env : String → Except String Package}
    {R : BuildState → BuildState → Prop}
    (hrefl : ∀ s, R s s)
    (htrans : ∀ a b c, R a b → R b c → R a c)
    (hstep : ∀ st pkg, R st (applyPkg st pkg)) :
    ∀ fuel st s st', processPackage c env fuel st s = Except.ok st' → R st st' := by
  intro fuel
  induction fuel with
  | zero => intro st s st' h; simp [processPackage] at h
  | succ fuel ih =>
    intro st s st' h
    simp only [processPackage] at h
    split at h
    · cases h; exact hrefl st
    · split at h
      · cases h
      · rename_i pkg heq
        split at h
        · cases h; exact hrefl st
        · split at h
          · cases h; exact hstep st pkg
          · refine htrans _ _ _ (hstep st pkg) ?_
            refine foldlM_rel htrans ?_ hrefl _ _ _ h
            intro s1 a s1' hg
            split at hg
            · cases hg; exact hrefl s1
            · exact ih s1 a s1' hg

/-- A successful `processPackage` call never removes a key from `pkgs`. -/
theorem processPackage_pkgs_mono {c : Config} {env : String → Except String Package}
    {fuel : Nat} {st : BuildState} {s : String} {st' : BuildState}
    (h : processPackage c env fuel st s = Except.ok st') :
    ∀ k, (st.pkgs.lookup k).isSome = true → (st'.pkgs.lookup k).isSome = true := by
  refine processPackage_rel (R := fun a b => ∀ k,
      (a.pkgs.lookup k).isSome = true → (b.pkgs.lookup k).isSome = true)
    (fun s k hk => hk) (fun a b c hab hbc k hk => hbc k (hab k hk)) ?_ fuel st s st' h
  intro st pkg k hk
  exact lookup_insertPkg_isSome _ _ hk

/-- A successful `processPackage` call never changes a non-empty
`basePath`. -/
theorem processPackage_basePath_stable {c : Config}
    {env : String → Except String Package}
    {fuel : Nat} {st : BuildState} {s : String} {st' : BuildState}
    (h : processPackage c env fuel st s = Except.ok st') :
    st.basePath ≠ "" → st'.basePath = st.basePath := by
  refine processPackage_rel
    (R := fun a b => a.basePath ≠ "" → b.basePath = a.basePath)
    (fun s _ => rfl) ?_ ?_ fuel st s st' h
  · intro a b c hab hbc hne
    rw [hbc (by rw [hab hne]; exact hne), hab hne]
  · intro st pkg hne
    simp [applyPkg, hne]

/-! ### Claim theorems -/

/-- C2: a package whose import path matches at least one always-include
prefix is never ignored, regardless of the exact-ignore set, the Goroot
flag together with `-s`, the ignored prefixes, or the base-path
restriction: the override is the first conjunct of `isIgnored` and wins
unconditionally. -/
theorem C2_include_override (c : Config) (bp : String) (pkg : Package)
    (h : hasPrefixes pkg.importPath c.includedPackages = true) :
    isIgnored c bp pkg = false := by
  simp [isIgnored, h]

theorem C2_include_override_witness :
    hasPrefixes "vendor/special/x" ["vendor/special"] = true ∧
      isIgnored
        ⟨true, ["vendor"], ["C", "vendor/special/x"], ["vendor/special"], true,
          false, false⟩
        "base" ⟨"vendor/special/x", true, [], []⟩ = false :=
  ⟨by decide,
   C2_include_override
     ⟨true, ["vendor"], ["C", "vendor/special/x"], ["vendor/special"], true,
       false, false⟩
     "base" ⟨"vendor/special/x", true, [], []⟩ (by decide)⟩

/-- C3: a call of `processPackage` on an import path in the exact-ignore
set (which `mkConfig` always seeds with the sentinel `"C"`) returns
immediately with the state unchanged: nothing is inserted into `pkgs`
and no import of that path is resolved through that call; a call on a
differently-spelled, unignored path that resolves to an unignored
package does insert that package under its canonical import path. -/
theorem C3_exact_ignore_short_circuit :
    (∀ (c : Config) (env : String → Except String Package) (fuel : Nat)
        (st : BuildState) (s : String),
      c.ignored.contains s = true →
      processPackage c env (fuel + 1) st s = Except.ok st) ∧
    (∀ (s : Bool) (p i n : String) (b sub net : Bool),
      (mkConfig s p i n b sub net).ignored.contains "C" = true) ∧
    (∀ (c : Config) (env : String → Except String Package) (fuel : Nat)
        (st : BuildState) (s' : String) (pkg : Package) (st' : BuildState),
      c.ignored.contains s' = false →
      env s' = Except.ok pkg →
      isIgnored c st.basePath pkg = false →
      processPackage c env (fuel + 1) st s' = Except.ok st' →
      ((st'.pkgs.lookup pkg.importPath).isSome = true)) := by
  refine ⟨?_, ?_, ?_⟩
  · intro c env fuel st s h
    unfold processPackage
    rw [if_pos h]
  · intro s p i n b sub net
    simp [mkConfig]
  · intro c env fuel st s' pkg st' hns henv hni h
    simp only [processPackage, hns, Bool.false_eq_true, if_false, henv, hni] at h
    have hbase : ((applyPkg st pkg).pkgs.lookup pkg.importPath).isSome = true := by
      rw [show (applyPkg st pkg).pkgs = insertPkg st.pkgs pkg.importPath pkg from rfl]
      rw [lookup_insertPkg_self]
      rfl
    split at h
    · cases h
      exact hbase
    · refine foldlM_rel (R := fun a b => (a.pkgs.lookup pkg.importPath).isSome = true →
        (b.pkgs.lookup pkg.importPath).isSome = true) ?_ ?_ (fun s h => h) _ _ _ h hbase
      · intro a b c hab hbc hk
        exact hbc (hab hk)
      · intro s1 a s1' hg
        split at hg
        · cases hg; exact fun hk => hk
        · intro hk
          exact processPackage_pkgs_mono hg _ hk

theorem C3_exact_ignore_short_circuit_witness :
    ((mkConfig false "" "foo" "" false false false).ignored.contains "C" = true) ∧
    ((mkConfig false "" "foo" "" false false false).ignored.contains "foo" = true) ∧
    (processPackage (mkConfig false "" "foo" "" false false false)
        (fun s => Except.error s) 4
        ⟨[], ""⟩ "foo" = Except.ok ⟨[], ""⟩) :=
  ⟨C3_exact_ignore_short_circuit.2.1 false "" "foo" "" false false false,
   by decide,
   C3_exact_ignore_short_circuit.1 (mkConfig false "" "foo" "" false false false)
     (fun s => Except.error s) 3 ⟨[], ""⟩ "foo" (by decide)⟩

/-- Every line any emission can produce: structural text, or a node /
edge line whose identifiers are `ns`-prefixed. -/
theorem evLines_shape (bp : String) (ev : Ev) (line : String)
    (h : line ∈ evLines bp ev) :
    line = "digraph godep \x7b" ∨ line = "\x7d" ∨ line = "style=filled;" ∨
      line = "color=lightgrey;" ∨
      (∃ n, line = "subgraph \"cluster" ++ n ++ "\" \x7b") ∨
      (∃ n, line = "label=\"" ++ n ++ "\"") ∨
      (∃ n col, line = "\"" ++ (bp ++ ":" ++ n) ++ "\" [label=\"" ++ n ++
        "\" style=\"filled\" color=\"" ++ col ++ "\"];") ∨
      (∃ s d, line = "\"" ++ (bp ++ ":" ++ s) ++ "\" -> \"" ++
        (bp ++ ":" ++ d) ++ "\";") := by
  cases ev with
  | header => simp only [evLines, List.mem_singleton] at h; exact Or.inl h
  | closeB =>
    simp only [evLines, List.mem_singleton] at h
    exact Or.inr (Or.inl h)
  | shead n =>
    simp only [evLines, subgraphHeadLines, List.mem_cons, List.mem_singleton,
      List.not_mem_nil, or_false] at h
    rcases h with h | h | h | h
    · exact Or.inr (Or.inr (Or.inr (Or.inr (Or.inl ⟨n, h⟩))))
    · exact Or.inr (Or.inr (Or.inl h))
    · exact Or.inr (Or.inr (Or.inr (Or.inl h)))
    · exact Or.inr (Or.inr (Or.inr (Or.inr (Or.inr (Or.inl ⟨n, h⟩)))))
  | node n col =>
    simp only [evLines, List.mem_singleton, nodeLine, ns] at h
    exact Or.inr (Or.inr (Or.inr (Or.inr (Or.inr (Or.inr (Or.inl ⟨n, col, h⟩))))))
  | edge s d =>
    simp only [evLines, List.mem_singleton, edgeLine, ns] at h
    exact Or.inr (Or.inr (Or.inr (Or.inr (Or.inr (Or.inr (Or.inr ⟨s, d, h⟩))))))

/-- C10: in the path-based-id implementation `ns` unconditionally
prefixes every node identifier and edge endpoint with
`basePath ++ ":"`: every output line is either fixed structural text, a
subgraph-head or label line, or a node / edge line all of whose
identifiers are of the form `basePath ++ ":" ++ name` — the synthetic
network-subgraph nodes included, since they are printed through the same
`printNode`/`printEdge` — and with an empty base path every identifier
begins with `":"`. -/
theorem C10_ns_prefixing :
    (∀ bp name, ns bp name = bp ++ ":" ++ name) ∧
    (∀ (c : Config) (st : BuildState) (order : List (String × Package))
        (line : String), line ∈ outputLines c st order →
      line = "digraph godep \x7b" ∨ line = "\x7d" ∨ line = "style=filled;" ∨
        line = "color=lightgrey;" ∨
        (∃ n, line = "subgraph \"cluster" ++ n ++ "\" \x7b") ∨
        (∃ n, line = "label=\"" ++ n ++ "\"") ∨
        (∃ n col, line = "\"" ++ (st.basePath ++ ":" ++ n) ++ "\" [label=\"" ++ n ++
          "\" style=\"filled\" color=\"" ++ col ++ "\"];") ∨
        (∃ s d, line = "\"" ++ (st.basePath ++ ":" ++ s) ++ "\" -> \"" ++
          (st.basePath ++ ":" ++ d) ++ "\";")) ∧
    (∀ name, strHasPrefix (ns "" name) ":" = true) := by
  refine ⟨fun bp name => rfl, ?_, ?_⟩
  · intro c st order line h
    rcases List.mem_flatMap.mp h with ⟨ev, _, hline⟩
    exact evLines_shape st.basePath ev line hline
  · intro name
    show ((":" : String).data.isPrefixOf (ns "" name).data) = true
    have : (ns "" name).data = (':' :: name.data) := by
      show ("" ++ ":" ++ name).data = (':' :: name.data)
      rw [String.data_append, String.data_append]
      rfl
    rw [this]
    simp [List.isPrefixOf]

theorem C10_ns_prefixing_witness :
    ("\":a\" [label=\"a\" style=\"filled\" color=\"paleturquoise\"];" ∈
        outputLines (mkConfig false "" "" "" false false false)
          ⟨[("a", ⟨"a", false, [], []⟩)], ""⟩ [("a", ⟨"a", false, [], []⟩)]) ∧
      ("\":a\" [label=\"a\" style=\"filled\" color=\"paleturquoise\"];" =
          "digraph godep \x7b" ∨
        "\":a\" [label=\"a\" style=\"filled\" color=\"paleturquoise\"];" = "\x7d" ∨
        "\":a\" [label=\"a\" style=\"filled\" color=\"paleturquoise\"];" =
          "style=filled;" ∨
        "\":a\" [label=\"a\" style=\"filled\" color=\"paleturquoise\"];" =
          "color=lightgrey;" ∨
        (∃ n, "\":a\" [label=\"a\" style=\"filled\" color=\"paleturquoise\"];" =
          "subgraph \"cluster" ++ n ++ "\" \x7b") ∨
        (∃ n, "\":a\" [label=\"a\" style=\"filled\" color=\"paleturquoise\"];" =
          "label=\"" ++ n ++ "\"") ∨
        (∃ n col, "\":a\" [label=\"a\" style=\"filled\" color=\"paleturquoise\"];" =
          "\"" ++ ("" ++ ":" ++ n) ++ "\" [label=\"" ++ n ++
            "\" style=\"filled\" color=\"" ++ col ++ "\"];") ∨
        (∃ s d, "\":a\" [label=\"a\" style=\"filled\" color=\"paleturquoise\"];" =
          "\"" ++ ("" ++ ":" ++ s) ++ "\" -> \"" ++ ("" ++ ":" ++ d) ++ "\";")) :=
  ⟨by decide,
   C10_ns_prefixing.2.1 (mkConfig false "" "" "" false false false)
     ⟨[("a", ⟨"a", false, [], []⟩)], ""⟩ [("a", ⟨"a", false, [], []⟩)]
     "\":a\" [label=\"a\" style=\"filled\" color=\"paleturquoise\"];" (by decide)⟩

theorem edgeFor_eq_some {c : Config} {bp : String}
    {pkgs : List (String × Package)} {src imp : String} {ev : Ev}
    (h : edgeFor c bp pkgs src imp = some ev) :
    ∃ Q, pkgs.lookup imp = some Q ∧ isIgnored c bp Q = false ∧
      ev = Ev.edge src imp := by
  unfold edgeFor at h
  revert h
  cases hlk : pkgs.lookup imp with
  | none => intro h; cases h
  | some Q =>
    intro h
    dsimp only at h
    by_cases hig : isIgnored c bp Q = true
    · rw [if_pos hig] at h; cases h
    · rw [if_neg hig] at h
      cases h
      exact ⟨Q, rfl, by simpa using hig, rfl⟩

theorem edgeFor_eq_some_intro {c : Config} {bp : String}
    {pkgs : List (String × Package)} {src imp : String} {Q : Package}
    (hlk : pkgs.lookup imp = some Q) (hig : isIgnored c bp Q = false) :
    edgeFor c bp pkgs src imp = some (Ev.edge src imp) := by
  unfold edgeFor
  rw [hlk]
  dsimp only
  rw [if_neg (by simp [hig])]

/-- C1: the main render loop emits the edge `p → q` exactly when the
`pkgs` map holds a package `P` at key `p` that is not ignored, `q` is
one of `P`'s import strings, and the lookup `pkgs[q]` yields a package
`Q` that is not ignored; an import string absent from `pkgs` (for
example one skipped by the exact-ignore short-circuit) produces no
edge. -/
theorem C1_edge_iff (c : Config) (bp : String)
    (pkgs : List (String × Package))
    (hnd : (pkgs.map Prod.fst).Nodup) (p q : String) :
    Ev.edge p q ∈ mainEvents c bp pkgs pkgs ↔
      ∃ P Q, pkgs.lookup p = some P ∧ isIgnored c bp P = false ∧
        q ∈ P.imports ∧ pkgs.lookup q = some Q ∧ isIgnored c bp Q = false := by
  constructor
  · intro h
    rcases List.mem_flatMap.mp h with ⟨e, hmem, hblock⟩
    unfold pkgBlock at hblock
    split at hblock
    · simp at hblock
    · rename_i hig
      rcases List.mem_cons.mp hblock with hh | ht
      · cases hh
      · rcases List.mem_filterMap.mp ht with ⟨imp, himp, heq⟩
        rcases edgeFor_eq_some heq with ⟨Q, hlk, higQ, hev⟩
        cases hev
        refine ⟨e.2, Q, ?_, by simpa using hig, himp, hlk, higQ⟩
        exact lookup_eq_some_of_mem_nodup hnd hmem
  · rintro ⟨P, Q, hlookP, hnigP, himp, hlookQ, hnigQ⟩
    refine List.mem_flatMap.mpr ⟨(p, P), mem_of_lookup_eq_some' hlookP, ?_⟩
    unfold pkgBlock
    rw [if_neg (by simp [hnigP])]
    exact List.mem_cons_of_mem _ (List.mem_filterMap.mpr
      ⟨q, himp, edgeFor_eq_some_intro hlookQ hnigQ⟩)

theorem C1_edge_iff_witness :
    (([("app", ⟨"app", false, [], ["lib", "gone"]⟩),
        ("lib", ⟨"lib", false, [], []⟩)].map
          (Prod.fst (α := String) (β := Package))).Nodup) ∧
      (Ev.edge "app" "lib" ∈
        mainEvents (mkConfig false "" "" "" false false false) ""
          [("app", ⟨"app", false, [], ["lib", "gone"]⟩), ("lib", ⟨"lib", false, [], []⟩)]
          [("app", ⟨"app", false, [], ["lib", "gone"]⟩), ("lib", ⟨"lib", false, [], []⟩)]) :=
  ⟨by decide,
   (C1_edge_iff (mkConfig false "" "" "" false false false) ""
       [("app", ⟨"app", false, [], ["lib", "gone"]⟩), ("lib", ⟨"lib", false, [], []⟩)]
       (by decide) "app" "lib").mpr
     ⟨⟨"app", false, [], ["lib", "gone"]⟩, ⟨"lib", false, [], []⟩,
       by decide, by decide, by decide, by decide, by decide⟩⟩

/-- C6: with `-network-subgraphs` off the second pass emits nothing; with
it on, the packages collected are exactly the rendered (non-ignored)
ones matching an always-include prefix and not starting with the base
path, and each collected package yields one standalone subgraph named
after its final path segment holding a single synthetic paleturquoise
node, plus an edge from the original node to the synthetic one. -/
theorem C6_network_subgraphs :
    (∀ (c : Config) (bp : String) (order : List (String × Package)),
      c.networkSubgraphs = false → networkEvents c bp order = []) ∧
    (∀ (c : Config) (bp : String) (order : List (String × Package)) (p : String),
      p ∈ networkEntries c bp order ↔
        c.networkSubgraphs = true ∧ ∃ P, (p, P) ∈ order ∧
          isIgnored c bp P = false ∧
          hasPrefixes P.importPath c.includedPackages = true ∧
          strHasPrefix P.importPath bp = false) ∧
    (∀ p, networkBlock p =
      [Ev.shead (lastSegment p), Ev.node (lastSegment p) "paleturquoise",
       Ev.closeB, Ev.edge p (lastSegment p)]) := by
  refine ⟨?_, ?_, fun p => rfl⟩
  · intro c bp order h
    simp [networkEvents, networkEntries, h]
  · intro c bp order p
    unfold networkEntries
    cases hns : c.networkSubgraphs with
    | false => simp
    | true =>
      rw [if_pos rfl]
      constructor
      · intro h
        rcases List.mem_map.mp h with ⟨e, he, rfl⟩
        rcases List.mem_filter.mp he with ⟨hmem, hpred⟩
        simp only [Bool.and_eq_true, Bool.not_eq_true'] at hpred
        exact ⟨rfl, e.2, by rwa [Prod.mk.eta], hpred.1.1, hpred.1.2, hpred.2⟩
      · rintro ⟨-, P, hmem, h1, h2, h3⟩
        exact List.mem_map.mpr ⟨(p, P),
          List.mem_filter.mpr ⟨hmem, by simp [h1, h2, h3]⟩, rfl⟩

theorem C6_network_subgraphs_witness :
    (networkEvents (mkConfig false "" "" "vendor/special" false true false) "base"
        [("vendor/special/x", ⟨"vendor/special/x", false, [], []⟩)] = []) ∧
      ("vendor/special/x" ∈
        networkEntries (mkConfig false "" "" "vendor/special" false true true) "base"
          [("vendor/special/x", ⟨"vendor/special/x", false, [], []⟩)]) :=
  ⟨C6_network_subgraphs.1 (mkConfig false "" "" "vendor/special" false true false)
      "base" [("vendor/special/x", ⟨"vendor/special/x", false, [], []⟩)] rfl,
   (C6_network_subgraphs.2.1 (mkConfig false "" "" "vendor/special" false true true)
       "base" [("vendor/special/x", ⟨"vendor/special/x", false, [], []⟩)]
       "vendor/special/x").mpr
     ⟨rfl, ⟨"vendor/special/x", false, [], []⟩, by decide, by decide, by decide,
       by decide⟩⟩

/-- An `importFailed` error out of `processPackage` always reports a path
on which the provider really failed, together with the provider's
cause. -/
theorem processPackage_error_src {c : Config}
    {env : String → Except String Package} :
    ∀ fuel st s p cause,
      processPackage c env fuel st s = Except.error (.importFailed p cause) →
      env p = Except.error cause := by
  intro fuel
  induction fuel with
  | zero => intro st s p cause h; simp [processPackage] at h
  | succ fuel ih =>
    intro st s p cause h
    simp only [processPackage] at h
    split at h
    · cases h
    · split at h
      · rename_i e heq
        cases h
        exact heq
      · rename_i pkg heq
        split at h
        · cases h
        · split at h
          · cases h
          · revert h
            generalize applyPkg st pkg = st2
            generalize pkg.imports = l
            induction l generalizing st2 with
            | nil =>
              intro h
              rw [List.foldlM_nil] at h
              exact Except.noConfusion h
            | cons a l ihl =>
              intro h
              rw [List.foldlM_cons] at h
              by_cases hlk : (st2.pkgs.lookup a).isSome = true
              · rw [if_pos hlk] at h
                exact ihl st2 h
              · rw [if_neg hlk] at h
                cases hp : processPackage c env fuel st2 a with
                | error e =>
                  rw [hp] at h
                  simp only [Bind.bind, Except.bind] at h
                  cases h
                  exact ih st2 a p cause hp
                | ok st1 =>
                  rw [hp] at h
                  simp only [Bind.bind, Except.bind] at h
                  exact ihl st1 h

/-- C9: when the build phase fails with an `importFailed` error, the
provider really failed on the reported path with the reported cause, the
whole run aborts with that error and emits no output lines at all (not
even the graph header), and the error message names the offending path
and the underlying cause; conversely a provider failure on the (not
exactly-ignored) root aborts the run this way. -/
theorem C9_fail_fast :
    (∀ (c : Config) (env : String → Except String Package) (fuel : Nat)
        (root p cause : String),
      processPackage c env fuel ⟨[], ""⟩ root = Except.error (.importFailed p cause) →
        env p = Except.error cause ∧
        run c env fuel root = Except.error (.importFailed p cause) ∧
        errMsg (.importFailed p cause) = "failed to import " ++ p ++ ": " ++ cause) ∧
    (∀ (c : Config) (env : String → Except String Package) (fuel : Nat)
        (root cause : String),
      c.ignored.contains root = false →
      env root = Except.error cause →
      run c env (fuel + 1) root = Except.error (.importFailed root cause)) := by
  constructor
  · intro c env fuel root p cause h
    refine ⟨processPackage_error_src fuel ⟨[], ""⟩ root p cause h, ?_, rfl⟩
    unfold run
    rw [h]
  · intro c env fuel root cause hns henv
    unfold run
    unfold processPackage
    rw [if_neg (by rw [hns]; exact Bool.false_ne_true), henv]

theorem C9_fail_fast_witness :
    env9 "r" = Except.error "no such package" ∧
      run (mkConfig false "" "" "" false false false) env9 2 "r" =
        Except.error (.importFailed "r" "no such package") ∧
      errMsg (.importFailed "r" "no such package") =
        "failed to import " ++ "r" ++ ": " ++ "no such package" :=
  (C9_fail_fast.1 (mkConfig false "" "" "" false false false) env9 2 "r" "r"
    "no such package" (by decide))

/-- C5 counterexample: with the `-b` flag off, the first resolved package
still fixes the base path: the claim that inference happens only when
the base-path-inference mode is enabled fails on the path-based-id
code, whose inference is guarded only by `basePath == ""`. -/
theorem C5_basepath_counterexample :
    (mkConfig false "" "" "" false false false).filterByBasePath = false ∧
      processPackage (mkConfig false "" "" "" false false false) env5 2
          ⟨[], ""⟩ "x/y/z" =
        Except.ok ⟨[("x/y/z", ⟨"x/y/z", false, [], []⟩)], "x/y"⟩ ∧
      ("x/y" : String) ≠ "" :=
  ⟨rfl, by decide, by decide⟩

/-- C5 (amended): base-path inference happens whenever no base path has
yet been fixed, regardless of the `-b` flag: the first resolved,
non-ignored package fixes the base path to the parent of its import
path (split on `"/"`, drop the last segment, rejoin), and when that
parent is non-empty it stays fixed for the rest of the call; the
base-path restriction in `isIgnored` applies only when `-b` is
active. -/
theorem C5_basepath_inference :
    (∀ (c : Config) (env : String → Except String Package) (fuel : Nat)
        (st : BuildState) (s : String) (pkg : Package) (st' : BuildState),
      st.basePath = "" →
      c.ignored.contains s = false →
      env s = Except.ok pkg →
      isIgnored c st.basePath pkg = false →
      parentPath pkg.importPath ≠ "" →
      processPackage c env (fuel + 1) st s = Except.ok st' →
      st'.basePath = parentPath pkg.importPath) ∧
    (∀ importPath bp, isNotOfBasepath false importPath bp = false) ∧
    (∀ importPath bp,
      isNotOfBasepath true importPath bp = !(strHasPrefix importPath bp)) := by
  refine ⟨?_, fun ip bp => rfl, fun ip bp => rfl⟩
  intro c env fuel st s pkg st' hbp hns henv hni hpar h
  unfold processPackage at h
  rw [if_neg (by rw [hns]; exact Bool.false_ne_true), henv] at h
  dsimp only at h
  rw [if_neg (by rw [hni]; exact Bool.false_ne_true)] at h
  have hst2 : (applyPkg st pkg).basePath = parentPath pkg.importPath := by
    unfold applyPkg
    rw [if_pos hbp]
  split at h
  · cases h
    exact hst2
  · have := foldlM_rel
      (R := fun a b => a.basePath ≠ "" → b.basePath = a.basePath)
      (fun a b c hab hbc hne => by rw [hbc (by rw [hab hne]; exact hne), hab hne])
      (fun s1 a s1' hg => by
        split at hg
        · cases hg; exact fun _ => rfl
        · exact processPackage_basePath_stable hg)
      (fun s _ => rfl) _ _ _ h
    rw [this (by rw [hst2]; exact hpar), hst2]

theorem C5_basepath_inference_witness :
    (⟨[("x/y/z", ⟨"x/y/z", false, [], []⟩)], "x/y"⟩ : BuildState).basePath =
      parentPath "x/y/z" :=
  C5_basepath_inference.1 (mkConfig false "" "" "" false false false) env5 1
    ⟨[], ""⟩ "x/y/z" ⟨"x/y/z", false, [], []⟩
    ⟨[("x/y/z", ⟨"x/y/z", false, [], []⟩)], "x/y"⟩
    rfl (by decide) (by decide) (by decide) (by decide) (by decide)

/-- Lower-casing a character twice is the same as once. -/
theorem char_toLower_toLower (c : Char) :
    (c.toLower).toLower = c.toLower := by
  by_cases h : c.toNat ≥ 65 ∧ c.toNat ≤ 90
  · have hc : c.toLower = Char.ofNat (c.toNat + 32) := by
      unfold Char.toLower
      rw [if_pos h]
    rw [hc]
    obtain ⟨h1, h2⟩ := h
    generalize c.toNat = n at h1 h2
    interval_cases n <;> decide
  · have hc : c.toLower = c := by
      unfold Char.toLower
      rw [if_neg h]
    rw [hc, hc]

/-- Lower-casing a string twice is the same as once. -/
theorem strToLower_strToLower (s : String) :
    strToLower (strToLower s) = strToLower s := by
  unfold strToLower
  refine congrArg String.mk ?_
  show ((s.data.map Char.toLower).map Char.toLower) = s.data.map Char.toLower
  rw [List.map_map]
  exact List.map_congr_left (fun a _ => char_toLower_toLower a)

/-- C7 counterexample: with `-i foo,bar` the package whose import path is
`FOO` — the upper-case spelling of an ignored entry — is resolved,
enters the graph and is rendered, so matching against package import
paths is not case-insensitive. -/
theorem C7_case_counterexample :
    (mkConfig false "" "foo,bar" "" false false false).ignored =
        ["C", "foo", "bar"] ∧
      strToLower "FOO" = "foo" ∧
      run (mkConfig false "" "foo,bar" "" false false false) env7 3 "FOO" =
        Except.ok ["digraph godep \x7b",
          "\":FOO\" [label=\"FOO\" style=\"filled\" color=\"paleturquoise\"];",
          "\x7d"] :=
  ⟨by decide, by decide, by decide⟩

/-- C7 (amended): the user-supplied ignore, ignored-prefix and
always-include entries are lower-cased and trimmed at configuration
time, so matching is insensitive to the case in which the user typed an
entry (`-i FOO, Bar` equals `-i foo,bar`); the comparison against
package import paths is exact and case-sensitive, so exactly the
packages whose import path equals a sanitized (lower-case) entry are
short-circuited out of the graph. -/
theorem C7_entry_sanitization :
    (∀ csv e, e ∈ sanitizeCSV csv → strToLower e = e) ∧
    (sanitizeCSV "FOO, Bar" = sanitizeCSV "foo,bar") ∧
    (∀ (csv p : String) (c : Config)
        (env : String → Except String Package) (fuel : Nat) (st : BuildState),
      p ∈ sanitizeCSV csv →
      c.ignored = "C" :: sanitizeCSV csv →
      processPackage c env (fuel + 1) st p = Except.ok st) := by
  refine ⟨?_, by decide, ?_⟩
  · intro csv e he
    rcases List.mem_map.mp he with ⟨v, _, rfl⟩
    exact strToLower_strToLower (strTrim v)
  · intro csv p c env fuel st hp hic
    have hcont : c.ignored.contains p = true := by
      rw [hic]
      exact List.elem_eq_true_of_mem (List.mem_cons_of_mem _ hp)
    unfold processPackage
    rw [if_pos hcont]

theorem C7_entry_sanitization_witness :
    strToLower "bar" = "bar" ∧
      processPackage
        { mkConfig false "" "x" "" false false false with
            ignored := "C" :: sanitizeCSV "FOO, Bar" }
        env9 1 ⟨[], ""⟩ "bar" = Except.ok ⟨[], ""⟩ :=
  ⟨C7_entry_sanitization.1 "FOO, Bar" "bar" (by decide),
   C7_entry_sanitization.2.2 "FOO, Bar" "bar"
     { mkConfig false "" "x" "" false false false with
         ignored := "C" :: sanitizeCSV "FOO, Bar" }
     env9 0 ⟨[], ""⟩ (by decide) rfl⟩

theorem envClosedOn_spec {env : String → Except String Package}
    {U : List String} (h : envClosedOn env U = true) :
    ∀ s ∈ U, ∀ pkg, env s = Except.ok pkg →
      pkg.importPath = s ∧ ∀ imp ∈ pkg.imports, imp ∈ U := by
  intro s hs pkg hpkg
  have hh := List.all_eq_true.mp h s hs
  rw [hpkg] at hh
  dsimp only at hh
  rw [Bool.and_eq_true] at hh
  refine ⟨by simpa using hh.1, fun imp him => ?_⟩
  have := List.all_eq_true.mp hh.2 imp him
  exact List.mem_of_elem_eq_true this

/-- Growing the `pkgs` map never increases the number of unvisited
paths. -/
theorem unvisited_mono {U : List String} {st st' : BuildState}
    (h : ∀ k, (st.pkgs.lookup k).isSome = true →
      (st'.pkgs.lookup k).isSome = true) :
    unvisited U st' ≤ unvisited U st := by
  unfold unvisited
  induction U with
  | nil => exact Nat.le_refl _
  | cons a U ih =>
    simp only [List.filter_cons]
    by_cases ha' : ((st'.pkgs.lookup a).isNone = true)
    · have ha : (st.pkgs.lookup a).isNone = true := by
        cases hsa : st.pkgs.lookup a with
        | none => rfl
        | some v =>
          rcases Option.isSome_iff_exists.mp (h a (by rw [hsa]; rfl)) with ⟨w, hw⟩
          rw [hw] at ha'
          exact Bool.noConfusion ha'
      rw [if_pos ha', if_pos ha]
      simp only [List.length_cons]
      exact Nat.succ_le_succ ih
    · rw [if_neg ha']
      by_cases ha : ((st.pkgs.lookup a).isNone = true)
      · rw [if_pos ha]
        exact Nat.le_trans ih (Nat.le_succ _)
      · rw [if_neg ha]
        exact ih

/-- Marking a previously-unvisited member of `U` visited (while visiting
nothing less) strictly decreases the count. -/
theorem unvisited_insert_lt {U : List String} {st st' : BuildState} {s : String}
    (hmono : ∀ k, (st.pkgs.lookup k).isSome = true →
      (st'.pkgs.lookup k).isSome = true)
    (hs : s ∈ U) (hnone : st.pkgs.lookup s = none)
    (hsome : (st'.pkgs.lookup s).isSome = true) :
    unvisited U st' < unvisited U st := by
  induction U with
  | nil => cases hs
  | cons a U ih =>
    unfold unvisited
    simp only [List.filter_cons]
    rcases List.mem_cons.mp hs with rfl | hs'
    · have hp : ((st.pkgs.lookup s).isNone = true) := by rw [hnone]; rfl
      have hp' : ¬((st'.pkgs.lookup s).isNone = true) := by
        rcases Option.isSome_iff_exists.mp hsome with ⟨w, hw⟩
        rw [hw]
        exact fun hx => Bool.noConfusion hx
      rw [if_pos hp, if_neg hp']
      simp only [List.length_cons]
      exact Nat.lt_succ_of_le (unvisited_mono hmono)
    · have hlt := ih hs'
      unfold unvisited at hlt
      by_cases ha' : ((st'.pkgs.lookup a).isNone = true)
      · have ha : (st.pkgs.lookup a).isNone = true := by
          cases hsa : st.pkgs.lookup a with
          | none => rfl
          | some v =>
            rcases Option.isSome_iff_exists.mp (hmono a (by rw [hsa]; rfl)) with ⟨w, hw⟩
            rw [hw] at ha'
            exact Bool.noConfusion ha'
        rw [if_pos ha', if_pos ha]
        simp only [List.length_cons]
        exact Nat.succ_lt_succ hlt
      · rw [if_neg ha']
        by_cases ha : ((st.pkgs.lookup a).isNone = true)
        · rw [if_pos ha]
          exact Nat.lt_succ_of_lt hlt
        · rw [if_neg ha]
          exact hlt

/-- The imports fold of `processPackage` never exhausts fuel when
every import lies in the universe and the unvisited count is below the
fuel available to the recursive calls. -/
theorem foldlM_no_fuel {c : Config} {env : String → Except String Package}
    {U : List String} {fuel : Nat}
    (ih : ∀ st s, s ∈ U → st.pkgs.lookup s = none → unvisited U st < fuel →
      processPackage c env fuel st s ≠ Except.error BuildErr.fuelExhausted) :
    ∀ (l : List String), (∀ x ∈ l, x ∈ U) → ∀ st2, unvisited U st2 < fuel →
      l.foldlM
        (fun s imp => if (s.pkgs.lookup imp).isSome then pure s
          else processPackage c env fuel s imp) st2 ≠
        Except.error BuildErr.fuelExhausted := by
  intro l
  induction l with
  | nil =>
    intro _ st2 _
    rw [List.foldlM_nil]
    intro h
    cases h
  | cons a l ihl =>
    intro hsub st2 hlt2
    rw [List.foldlM_cons]
    by_cases hlk : (st2.pkgs.lookup a).isSome = true
    · rw [if_pos hlk]
      exact ihl (fun x hx => hsub x (List.mem_cons_of_mem _ hx)) st2 hlt2
    · rw [if_neg hlk]
      cases hp : processPackage c env fuel st2 a with
      | error e =>
        have hne := ih st2 a (hsub a (List.mem_cons_self _ _))
          (by cases hl2 : st2.pkgs.lookup a with
              | none => rfl
              | some v => rw [hl2] at hlk; exact absurd rfl hlk)
          hlt2
        rw [hp] at hne
        intro h
        simp only [Bind.bind, Except.bind] at h
        rw [h] at hne
        exact hne rfl
      | ok st1 =>
        have hm := processPackage_pkgs_mono hp
        have hle : unvisited U st1 ≤ unvisited U st2 := unvisited_mono hm
        intro h
        simp only [Bind.bind, Except.bind] at h
        exact ihl (fun x hx => hsub x (List.mem_cons_of_mem _ hx)) st1
          (Nat.lt_of_le_of_lt hle hlt2) h

/-- With enough fuel, the build recursion never exhausts it: each
recursive call happens on an unvisited path of the closed universe and
the package is stored before its imports are walked, so the number of
unvisited paths strictly decreases along the call chain. -/
theorem processPackage_no_fuel {c : Config} {env : String → Except String Package}
    {U : List String}
    (hcl : ∀ s ∈ U, ∀ pkg, env s = Except.ok pkg →
      pkg.importPath = s ∧ ∀ imp ∈ pkg.imports, imp ∈ U) :
    ∀ fuel st s, s ∈ U → st.pkgs.lookup s = none → unvisited U st < fuel →
      processPackage c env fuel st s ≠ Except.error BuildErr.fuelExhausted := by
  intro fuel
  induction fuel with
  | zero => intro st s hs hnone hlt; exact absurd hlt (Nat.not_lt_zero _)
  | succ fuel ih =>
    intro st s hs hnone hlt
    unfold processPackage
    by_cases hig : c.ignored.contains s = true
    · rw [if_pos hig]; intro h; cases h
    · rw [if_neg hig]
      cases henv : env s with
      | error e => intro h; simp at h
      | ok pkg =>
        dsimp only
        obtain ⟨hcanon, himps⟩ := hcl s hs pkg henv
        by_cases hig2 : isIgnored c st.basePath pkg = true
        · rw [if_pos hig2]; intro h; cases h
        · rw [if_neg hig2]
          by_cases hgo : pkg.goroot = true
          · rw [if_pos hgo]; intro h; cases h
          · rw [if_neg hgo]
            have hmono : ∀ k, (st.pkgs.lookup k).isSome = true →
                ((applyPkg st pkg).pkgs.lookup k).isSome = true := by
              intro k hk
              exact lookup_insertPkg_isSome _ _ hk
            have hins : ((applyPkg st pkg).pkgs.lookup s).isSome = true := by
              show ((insertPkg st.pkgs pkg.importPath pkg).lookup s).isSome = true
              rw [hcanon, lookup_insertPkg_self]
              rfl
            have hlt2 : unvisited U (applyPkg st pkg) < fuel := by
              have hdec := unvisited_insert_lt hmono hs hnone hins
              omega
            exact foldlM_no_fuel ih pkg.imports himps (applyPkg st pkg) hlt2

/-- C4: on a finite import graph — a finite universe `U` of import paths
on which the provider is canonical and closed — the recursive resolution
terminates: fuel `|U| + 1` (or more) is never exhausted, because each
package is inserted into `pkgs` under its canonical path before its
imports are walked, and recursion only proceeds into the import strings
not yet present as keys. -/
theorem C4_termination (c : Config) (env : String → Except String Package)
    (U : List String) (root : String) (fuel : Nat)
    (hcl : envClosedOn env U = true)
    (hroot : root ∈ U)
    (hfuel : U.length < fuel) :
    processPackage c env fuel ⟨[], ""⟩ root ≠
      Except.error BuildErr.fuelExhausted := by
  have hempty : unvisited U ⟨[], ""⟩ = U.length := by
    unfold unvisited
    exact congrArg List.length (List.filter_eq_self.mpr (fun a _ => rfl))
  exact processPackage_no_fuel (envClosedOn_spec hcl) fuel ⟨[], ""⟩ root hroot rfl
    (by rw [hempty]; exact hfuel)

theorem C4_termination_witness :
    envClosedOn envA ["a", "b"] = true ∧
      processPackage (mkConfig false "" "" "" false false false) envA 3
          ⟨[], ""⟩ "a" ≠ Except.error BuildErr.fuelExhausted :=
  ⟨by decide,
   C4_termination (mkConfig false "" "" "" false false false) envA ["a", "b"]
     "a" 3 (by decide) (by decide) (by decide)⟩

/-! ### The id registry of the counter-based-id variant -/

theorem getId_spec (ids : IdState) (n : String) (hwf : IdWF ids) :
    IdWF (getId ids n).2 ∧
      (∃ t, (getId ids n).2.ids = ids.ids ++ t) ∧
      (getId ids n).2.ids.lookup n = some (getId ids n).1 := by
  unfold getId
  cases h : ids.ids.lookup n with
  | some i =>
    dsimp only
    exact ⟨hwf, ⟨[], (List.append_nil _).symm⟩, h⟩
  | none =>
    dsimp only
    refine ⟨⟨?_, ?_⟩, ⟨[(n, ids.nextId)], rfl⟩, ?_⟩
    · show (ids.ids ++ [(n, ids.nextId)]).map Prod.snd =
        List.range (ids.ids ++ [(n, ids.nextId)]).length
      rw [List.map_append, List.length_append, hwf.1, hwf.2]
      simp [List.range_succ]
    · show ids.nextId + 1 = (ids.ids ++ [(n, ids.nextId)]).length
      rw [List.length_append, hwf.2]
      rfl
    · show (ids.ids ++ [(n, ids.nextId)]).lookup n = some ids.nextId
      rw [List.lookup_append, h]
      simp

theorem snd_nodup_mem_inj {l : List (String × Nat)}
    (hnd : (l.map Prod.snd).Nodup) {k1 k2 : String} {v : Nat}
    (h1 : (k1, v) ∈ l) (h2 : (k2, v) ∈ l) : k1 = k2 := by
  induction l with
  | nil => cases h1
  | cons a l ih =>
    simp only [List.map_cons, List.nodup_cons] at hnd
    rcases List.mem_cons.mp h1 with e1 | m1
    · rcases List.mem_cons.mp h2 with e2 | m2
      · rw [← e2] at e1
        exact (Prod.mk.injEq _ _ _ _).mp e1.symm |>.1.symm ▸ rfl
      · exfalso
        apply hnd.1
        rw [← e1]
        exact List.mem_map.mpr ⟨(k2, v), m2, rfl⟩
    · rcases List.mem_cons.mp h2 with e2 | m2
      · exfalso
        apply hnd.1
        rw [← e2]
        exact List.mem_map.mpr ⟨(k1, v), m1, rfl⟩
      · exact ih hnd.2 m1 m2

theorem IdWF_lookup_inj {ids : IdState} (hwf : IdWF ids) {k1 k2 : String}
    {v : Nat} (h1 : ids.ids.lookup k1 = some v)
    (h2 : ids.ids.lookup k2 = some v) : k1 = k2 := by
  have hnd : (ids.ids.map Prod.snd).Nodup := by
    rw [hwf.1]
    exact List.nodup_range _
  have m1 : (k1, v) ∈ ids.ids := by
    rcases List.lookup_eq_some_iff.mp h1 with ⟨l1, l2, heq, -⟩
    rw [heq]
    exact List.mem_append_right _ (List.mem_cons_self _ _)
  have m2 : (k2, v) ∈ ids.ids := by
    rcases List.lookup_eq_some_iff.mp h2 with ⟨l1, l2, heq, -⟩
    rw [heq]
    exact List.mem_append_right _ (List.mem_cons_self _ _)
  exact snd_nodup_mem_inj hnd m1 m2

/-- The edge loop of one counter-render iteration: the registry stays
well-formed and append-only, and the integer edges are exactly the
name-level edges renamed through any function agreeing with the final
registry. -/
theorem edgeStep_foldl_spec (c1 : Config1) (pkgs : List (String × Package))
    (srcName : String) (pkgId : Nat) :
    ∀ (l : List String) (ids : IdState) (acc : List CEv),
      IdWF ids → ids.ids.lookup srcName = some pkgId →
      IdWF (l.foldl (edgeStep c1 pkgs pkgId) (ids, acc)).1 ∧
        (∃ t, (l.foldl (edgeStep c1 pkgs pkgId) (ids, acc)).1.ids = ids.ids ++ t) ∧
        ∀ f : String → Nat,
          (∀ k v, (l.foldl (edgeStep c1 pkgs pkgId) (ids, acc)).1.ids.lookup k =
              some v → f k = v) →
          (l.foldl (edgeStep c1 pkgs pkgId) (ids, acc)).2 =
            acc ++ (l.filterMap (nameEdgeFor c1 pkgs srcName)).map (renameEv f) := by
  intro l
  induction l with
  | nil =>
    intro ids acc hwf hsrc
    refine ⟨hwf, ⟨[], (List.append_nil _).symm⟩, fun f hf => ?_⟩
    simp [List.foldl_nil, List.filterMap_nil]
  | cons imp l ih =>
    intro ids acc hwf hsrc
    rw [List.foldl_cons]
    show IdWF ((l.foldl (edgeStep c1 pkgs pkgId) (edgeStep c1 pkgs pkgId (ids, acc) imp))).1 ∧ _
    cases hq : pkgs.lookup imp with
    | none =>
      have hstep : edgeStep c1 pkgs pkgId (ids, acc) imp = (ids, acc) := by
        unfold edgeStep
        rw [hq]
      have hname : nameEdgeFor c1 pkgs srcName imp = none := by
        unfold nameEdgeFor
        rw [hq]
      rw [hstep]
      rcases ih ids acc hwf hsrc with ⟨hwf', hgrow, hmap⟩
      refine ⟨hwf', hgrow, fun f hf => ?_⟩
      rw [List.filterMap_cons, hname]
      exact hmap f hf
    | some q =>
      by_cases hig : isIgnored1 c1 q = true
      · have hstep : edgeStep c1 pkgs pkgId (ids, acc) imp = (ids, acc) := by
          unfold edgeStep
          rw [hq]
          dsimp only
          rw [if_pos hig]
        have hname : nameEdgeFor c1 pkgs srcName imp = none := by
          unfold nameEdgeFor
          rw [hq]
          dsimp only
          rw [if_pos hig]
        rw [hstep]
        rcases ih ids acc hwf hsrc with ⟨hwf', hgrow, hmap⟩
        refine ⟨hwf', hgrow, fun f hf => ?_⟩
        rw [List.filterMap_cons, hname]
        exact hmap f hf
      · have hstep : edgeStep c1 pkgs pkgId (ids, acc) imp =
            ((getId ids imp).2, acc ++ [CEv.edge pkgId (getId ids imp).1]) := by
          unfold edgeStep
          rw [hq]
          dsimp only
          rw [if_neg hig]
        have hname : nameEdgeFor c1 pkgs srcName imp =
            some (NEv.edge srcName imp) := by
          unfold nameEdgeFor
          rw [hq]
          dsimp only
          rw [if_neg hig]
        rw [hstep]
        rcases getId_spec ids imp hwf with ⟨hwf1, ⟨t1, hg1⟩, hlook1⟩
        have hsrc1 : (getId ids imp).2.ids.lookup srcName = some pkgId := by
          rw [hg1]
          exact lookup_append_some hsrc
        rcases ih (getId ids imp).2 (acc ++ [CEv.edge pkgId (getId ids imp).1])
            hwf1 hsrc1 with ⟨hwf', ⟨t2, hg2⟩, hmap⟩
        refine ⟨hwf', ⟨t1 ++ t2, by rw [hg2, hg1, List.append_assoc]⟩, fun f hf => ?_⟩
        have hfin_src : f srcName = pkgId := by
          apply hf
          rw [hg2]
          exact lookup_append_some hsrc1
        have hfin_imp : f imp = (getId ids imp).1 := by
          apply hf
          rw [hg2]
          exact lookup_append_some hlook1
        rw [List.filterMap_cons, hname, List.map_cons, hmap f hf,
          List.append_assoc]
        show acc ++ ([CEv.edge pkgId (getId ids imp).1] ++ _) = _
        rw [renameEv, hfin_src, hfin_imp]
        rfl

/-- One counter-render iteration keeps the registry well-formed and
append-only, and emits the name-level block renamed through any function
agreeing with its final registry. -/
theorem counterBlock_spec (c1 : Config1) (pkgs : List (String × Package))
    (ids : IdState) (e : String × Package) (hwf : IdWF ids) :
    IdWF (counterBlock c1 pkgs ids e).1 ∧
      (∃ t, (counterBlock c1 pkgs ids e).1.ids = ids.ids ++ t) ∧
      ∀ f : String → Nat,
        (∀ k v, (counterBlock c1 pkgs ids e).1.ids.lookup k = some v → f k = v) →
        (counterBlock c1 pkgs ids e).2 = (nameBlock c1 pkgs e).map (renameEv f) := by
  rcases getId_spec ids e.1 hwf with ⟨hwf0, ⟨t0, hg0⟩, hlook0⟩
  by_cases hig : isIgnored1 c1 e.2 = true
  · have hb : counterBlock c1 pkgs ids e = ((getId ids e.1).2, []) := by
      unfold counterBlock
      dsimp only
      rw [if_pos hig]
    have hn : nameBlock c1 pkgs e = [] := by
      unfold nameBlock
      rw [if_pos hig]
    rw [hb, hn]
    exact ⟨hwf0, ⟨t0, hg0⟩, fun f hf => rfl⟩
  · by_cases hgo : e.2.goroot = true
    · have hb : counterBlock c1 pkgs ids e =
          ((getId ids e.1).2,
            [CEv.node (getId ids e.1).1 e.1 (nodeColor c1.includedPackages e.2)]) := by
        unfold counterBlock
        dsimp only
        rw [if_neg hig, if_pos hgo]
      have hn : nameBlock c1 pkgs e =
          [NEv.node e.1 (nodeColor c1.includedPackages e.2)] := by
        unfold nameBlock
        dsimp only
        rw [if_neg hig, if_pos hgo]
      rw [hb, hn]
      refine ⟨hwf0, ⟨t0, hg0⟩, fun f hf => ?_⟩
      have hfe : f e.1 = (getId ids e.1).1 := hf _ _ hlook0
      rw [List.map_singleton, renameEv, hfe]
    · have hb : counterBlock c1 pkgs ids e =
          ((e.2.imports.foldl (edgeStep c1 pkgs (getId ids e.1).1)
              ((getId ids e.1).2, [])).1,
            CEv.node (getId ids e.1).1 e.1 (nodeColor c1.includedPackages e.2) ::
              (e.2.imports.foldl (edgeStep c1 pkgs (getId ids e.1).1)
                ((getId ids e.1).2, [])).2) := by
        unfold counterBlock
        dsimp only
        rw [if_neg hig, if_neg hgo]
      have hn : nameBlock c1 pkgs e =
          NEv.node e.1 (nodeColor c1.includedPackages e.2) ::
            e.2.imports.filterMap (nameEdgeFor c1 pkgs e.1) := by
        unfold nameBlock
        dsimp only
        rw [if_neg hig, if_neg hgo]
      rcases edgeStep_foldl_spec c1 pkgs e.1 (getId ids e.1).1 e.2.imports
          (getId ids e.1).2 [] hwf0 hlook0 with ⟨hwf', ⟨t2, hg2⟩, hmap⟩
      rw [hb, hn]
      refine ⟨hwf', ⟨t0 ++ t2, by rw [hg2, hg0, List.append_assoc]⟩, fun f hf => ?_⟩
      have hfe : f e.1 = (getId ids e.1).1 := by
        apply hf
        rw [hg2]
        exact lookup_append_some hlook0
      rw [List.map_cons, hmap f hf, List.nil_append, renameEv, hfe]

/-- The whole counter-render loop: well-formed append-only registry, and
integer events equal to the name-level events renamed through any
function agreeing with the final registry. -/
theorem counterRender_spec (c1 : Config1) (pkgs : List (String × Package)) :
    ∀ (order : List (String × Package)) (ids : IdState), IdWF ids →
      IdWF (counterRender c1 pkgs ids order).1 ∧
        (∃ t, (counterRender c1 pkgs ids order).1.ids = ids.ids ++ t) ∧
        ∀ f : String → Nat,
          (∀ k v, (counterRender c1 pkgs ids order).1.ids.lookup k = some v →
            f k = v) →
          (counterRender c1 pkgs ids order).2 =
            (nameEvents c1 pkgs order).map (renameEv f) := by
  intro order
  induction order with
  | nil =>
    intro ids hwf
    exact ⟨hwf, ⟨[], (List.append_nil _).symm⟩, fun f hf => rfl⟩
  | cons e rest ih =>
    intro ids hwf
    have hr : counterRender c1 pkgs ids (e :: rest) =
        ((counterRender c1 pkgs (counterBlock c1 pkgs ids e).1 rest).1,
          (counterBlock c1 pkgs ids e).2 ++
            (counterRender c1 pkgs (counterBlock c1 pkgs ids e).1 rest).2) := rfl
    rcases counterBlock_spec c1 pkgs ids e hwf with ⟨hwf1, ⟨t1, hg1⟩, hmap1⟩
    rcases ih (counterBlock c1 pkgs ids e).1 hwf1 with ⟨hwf2, ⟨t2, hg2⟩, hmap2⟩
    rw [hr]
    dsimp only
    refine ⟨hwf2, ⟨t1 ++ t2, by rw [hg2, hg1, List.append_assoc]⟩, fun f hf => ?_⟩
    have hne : nameEvents c1 pkgs (e :: rest) =
        nameBlock c1 pkgs e ++ nameEvents c1 pkgs rest := by
      unfold nameEvents
      rw [List.flatMap_cons]
    rw [hne, List.map_append]
    congr 1
    · apply hmap1
      intro k v hk
      apply hf
      rw [hg2]
      exact lookup_append_some hk
    · exact hmap2 f hf

/-- C8 (amended): with the `pkgs` map iteration order as the only
nondeterminism between two runs on identical inputs, the path-based-id
implementation produces the same multiset of output lines (a permutation
— not necessarily byte-identical text); the counter-based-id
implementation produces the same name-level node set and edge relation
up to a permutation of the order, and its integer events are exactly
those name-level events renamed through its run's final id registry,
which is injective, so the edge relation agrees up to renaming of the
integer ids. -/
theorem C8_order_stability :
    (∀ (c : Config) (st : BuildState) (o1 o2 : List (String × Package)),
      o1.Perm o2 → (outputLines c st o1).Perm (outputLines c st o2)) ∧
    (∀ (c1 : Config1) (pkgs o1 o2 : List (String × Package)),
      o1.Perm o2 → (nameEvents c1 pkgs o1).Perm (nameEvents c1 pkgs o2)) ∧
    (∀ (c1 : Config1) (pkgs order : List (String × Package)),
      (counterRender c1 pkgs ⟨[], 0⟩ order).2 =
        (nameEvents c1 pkgs order).map (renameEv (finalIdOf c1 pkgs order))) ∧
    (∀ (c1 : Config1) (pkgs order : List (String × Package))
        (k1 k2 : String) (v : Nat),
      (counterRender c1 pkgs ⟨[], 0⟩ order).1.ids.lookup k1 = some v →
      (counterRender c1 pkgs ⟨[], 0⟩ order).1.ids.lookup k2 = some v →
      k1 = k2) := by
  have hwf0 : IdWF ⟨[], 0⟩ := ⟨rfl, rfl⟩
  refine ⟨?_, ?_, ?_, ?_⟩
  · intro c st o1 o2 h
    unfold outputLines
    refine List.Perm.flatMap_right _ ?_
    unfold events
    have hnet : (networkEntries c st.basePath o1).Perm
        (networkEntries c st.basePath o2) := by
      unfold networkEntries
      by_cases hn : c.networkSubgraphs = true
      · rw [if_pos hn, if_pos hn]
        exact (h.filter _).map _
      · rw [if_neg hn, if_neg hn]
    exact List.Perm.append
      (List.Perm.append
        (List.Perm.append
          (List.Perm.append (List.Perm.refl _) (List.Perm.flatMap_right _ h))
          (List.Perm.refl _))
        (List.Perm.flatMap_right _ hnet))
      (List.Perm.refl _)
  · intro c1 pkgs o1 o2 h
    exact List.Perm.flatMap_right _ h
  · intro c1 pkgs order
    refine ((counterRender_spec c1 pkgs order ⟨[], 0⟩ hwf0).2.2) _ ?_
    intro k v hk
    unfold finalIdOf
    rw [hk]
    rfl
  · intro c1 pkgs order k1 k2 v h1 h2
    exact IdWF_lookup_inj (counterRender_spec c1 pkgs order ⟨[], 0⟩ hwf0).1 h1 h2

theorem C8_order_stability_witness :
    (outputLines (mkConfig false "" "" "" false false false) ⟨pkgsA, ""⟩
        pkgsA).Perm
      (outputLines (mkConfig false "" "" "" false false false) ⟨pkgsA, ""⟩
        pkgsA.reverse) :=
  C8_order_stability.1 (mkConfig false "" "" "" false false false) ⟨pkgsA, ""⟩
    pkgsA pkgsA.reverse (by decide)

/-- C8 counterexample: the same build state rendered in the two possible
map iteration orders — both legitimate runs on identical inputs, since
Go's map range order is unspecified and varies between runs — yields
different output text, refuting byte-identical determinism of the
path-based-id implementation. -/
theorem C8_byte_identity_counterexample :
    pkgsA.Perm pkgsA.reverse ∧
      outputLines (mkConfig false "" "" "" false false false) ⟨pkgsA, ""⟩
          pkgsA ≠
        outputLines (mkConfig false "" "" "" false false false) ⟨pkgsA, ""⟩
          pkgsA.reverse :=
  ⟨by decide, by decide⟩

end Godep
